import Mathlib

/-!
# Verification of the OSM (Operating State Manager) cpufreq engine

A shallow embedding of `drivers/cpufreq/qcom-cpufreq-hw.c`, covering:

* the MEM-ACC / APM crossover derivation performed by
  `qcom_cpufreq_gen_params` and `qcom_cpufreq_hw_write_lut`;
* the LUT row padding performed by `qcom_cpufreq_hw_write_lut`;
* the ACD transfer protocol (`qcom_cpufreq_hw_acd_write_autoxfer`,
  `qcom_cpufreq_hw_acd_write_xfer`, `qcom_cpufreq_hw_acd_init`),
  modelled as a trace of intended MMIO operations;
* the runtime control operations (`qcom_cpufreq_hw_target_index`,
  `qcom_cpufreq_hw_get`);
* the LMh throttle notifier (`qcom_lmh_dcvs_notify`) and the teardown
  path (`qcom_cpufreq_hw_lmh_exit`), the latter as a small interleaving
  transition system.

Machine integers are modelled as `Nat`/`Int`; the few places where C
signedness or masking matters are made explicit.
-/

namespace Osm

/-- Constant `LUT_MAX_ENTRIES` in the source: depth of the hardware lookup table. -/
def LUT_MAX_ENTRIES : Nat := 40

/-- Constant `SEQ_MEM_ACC_MAX_LEVELS` in the source. -/
def SEQ_MEM_ACC_MAX_LEVELS : Nat := 4

/-- Constant `U8_MAX`, used as the "no customized MEM-ACC corner" sentinel. -/
def U8_MAX : Int := 255

/-- C `INT_MAX`, used by `qcom_cpufreq_gen_params` as the "no MEM-ACC
threshold supplied" voltage sentinel. -/
def INT_MAX : Int := 2147483647

/-- One LUT row, mirroring `struct qcom_cpufreq_hw_params`. -/
structure HwParams where
  volt_lut_val : Nat := 0
  freq_lut_val : Nat := 0
  override_val : Nat := 0
  spare_val : Nat := 0
deriving DecidableEq, Repr

instance : Inhabited HwParams := ⟨{}⟩

/-- The row used at LUT slot `i` in the programming loop of
`qcom_cpufreq_hw_write_lut`: the real row for `i < num_entries`, and the
last real row (`hw_tbl[num_entries - 1]`) for padding slots. -/
def lutEntry (tbl : List HwParams) (numEntries i : Nat) : HwParams :=
  if i < numEntries then tbl.getD i default else tbl.getD (numEntries - 1) default

/-- State of the MEM-ACC crossover scan inside the LUT write loop of
`qcom_cpufreq_hw_write_lut`: `lastSpare` mirrors the `last_spare` local
(initialised to 1), and `accVals` mirrors the filled portion
`acc_val[0..acc_idx)` of the `acc_val` array (appending two entries
corresponds to storing at `acc_idx`, `acc_idx + 1`). -/
structure ScanState where
  lastSpare : Nat
  accVals : List Int
deriving DecidableEq, Repr

/-- One iteration (index `i`) of the crossover scan in the LUT write
loop: skip when the spare value does not strictly increase or the
`acc_val` array already holds at least `SEQ_MEM_ACC_MAX_LEVELS - 1`
entries; otherwise record the transition pair `(i - 1, i)`. -/
def scanStep (tbl : List HwParams) (numEntries i : Nat) (s : ScanState) : ScanState :=
  let entry := lutEntry tbl numEntries i
  if entry.spare_val ≤ s.lastSpare ∨ SEQ_MEM_ACC_MAX_LEVELS - 1 ≤ s.accVals.length then
    s
  else
    { lastSpare := entry.spare_val,
      accVals := s.accVals ++ [(i : Int) - 1, (i : Int)] }

/-- The crossover scan after the first `n` iterations of the loop
`for (i = 0; i < LUT_MAX_ENTRIES; i++)`. -/
def scanUpTo (tbl : List HwParams) (numEntries : Nat) : Nat → ScanState
  | 0 => { lastSpare := 1, accVals := [] }
  | n + 1 => scanStep tbl numEntries n (scanUpTo tbl numEntries n)

/-- The four MEM-ACC crossover corner indices, mirroring
`int acc_val[SEQ_MEM_ACC_MAX_LEVELS]` (C `int`, hence `Int` here). -/
structure Acc4 where
  a0 : Int
  a1 : Int
  a2 : Int
  a3 : Int
deriving DecidableEq, Repr

/-- The raw crossover derivation of `qcom_cpufreq_hw_write_lut`: run the
scan over all 40 LUT slots and fail (the C code returns `-EINVAL`) unless
at least `SEQ_MEM_ACC_MAX_LEVELS - 1` values were recorded, i.e. unless
both pairs are present. -/
def deriveRaw (tbl : List HwParams) (numEntries : Nat) : Option Acc4 :=
  if (scanUpTo tbl numEntries LUT_MAX_ENTRIES).accVals.length < SEQ_MEM_ACC_MAX_LEVELS - 1 then
    none
  else
    match (scanUpTo tbl numEntries LUT_MAX_ENTRIES).accVals with
    | a0 :: a1 :: a2 :: a3 :: _ => some ⟨a0, a1, a2, a3⟩
    | _ => none

/-- The customized MEM-ACC corner adjustment of
`qcom_cpufreq_hw_write_lut` (the `if (acc_vc > 0 && acc_vc != U8_MAX)`
block): decrement the candidate corner, override the upper pair when the
adjusted corner is below `acc_val[3]`, then sanitize the remaining
values downwards. -/
def adjustAcc (acc_vc : Int) (v : Acc4) : Acc4 :=
  if acc_vc > 0 ∧ acc_vc ≠ U8_MAX then
    let acc_vc := acc_vc - 1
    let v := if acc_vc < v.a3 then { v with a2 := acc_vc - 1, a3 := acc_vc } else v
    let v := if v.a2 ≤ v.a1 then { v with a1 := v.a2 - 1 } else v
    let v := if v.a1 ≤ v.a0 then { v with a0 := v.a1 - 1 } else v
    v
  else v

/-- The complete MEM-ACC crossover derivation of
`qcom_cpufreq_hw_write_lut`: the raw scan followed by the customized
corner adjustment. -/
def deriveAcc (tbl : List HwParams) (numEntries : Nat) (acc_vc : Int) : Option Acc4 :=
  match deriveRaw tbl numEntries with
  | none => none
  | some v => some (adjustAcc acc_vc v)

end Osm
namespace Osm

/-- Adjacent rows of the source table carry non-decreasing spare values
(the HardwareParamRow validity invariant). -/
def sparesNonDecr : List HwParams → Bool
  | a :: b :: rest => a.spare_val ≤ b.spare_val && sparesNonDecr (b :: rest)
  | _ => true

/-- Shape of the `acc_val` array contents after `n` scan iterations:
empty, one transition pair, or two transition pairs recorded at strictly
increasing indices below `n`, the first at index ≥ 1. -/
def rawShape (n : Nat) (l : List Int) : Prop :=
  l = [] ∨
  (∃ i1 : Nat, 1 ≤ i1 ∧ i1 < n ∧ l = [(i1 : Int) - 1, (i1 : Int)]) ∨
  (∃ i1 i2 : Nat, 1 ≤ i1 ∧ i1 < i2 ∧ i2 < n ∧
    l = [(i1 : Int) - 1, (i1 : Int), (i2 : Int) - 1, (i2 : Int)])

theorem rawShape_mono {n m : Nat} (h : n ≤ m) {l : List Int} :
    rawShape n l → rawShape m l := by
  rintro (h1 | ⟨i1, h1, h2, h3⟩ | ⟨i1, i2, h1, h2, h3, h4⟩)
  · exact Or.inl h1
  · exact Or.inr (Or.inl ⟨i1, h1, lt_of_lt_of_le h2 h, h3⟩)
  · exact Or.inr (Or.inr ⟨i1, i2, h1, h2, lt_of_lt_of_le h3 h, h4⟩)

theorem scanUpTo_shape (tbl : List HwParams) (ne : Nat)
    (h0 : (lutEntry tbl ne 0).spare_val ≤ 1) :
    ∀ n, rawShape n (scanUpTo tbl ne n).accVals := by
  intro n
  induction n with
  | zero => exact Or.inl rfl
  | succ n ih =>
    show rawShape (n + 1) (scanStep tbl ne n (scanUpTo tbl ne n)).accVals
    unfold scanStep
    by_cases hc : (lutEntry tbl ne n).spare_val ≤ (scanUpTo tbl ne n).lastSpare ∨
        SEQ_MEM_ACC_MAX_LEVELS - 1 ≤ (scanUpTo tbl ne n).accVals.length
    · rw [if_pos hc]
      exact rawShape_mono (Nat.le_succ n) ih
    · rw [if_neg hc]
      push_neg at hc
      obtain ⟨hspare, hlen⟩ := hc
      rcases ih with hnil | ⟨i1, h1, h2, h3⟩ | ⟨i1, i2, h1, h2, h3, h4⟩
      · rcases Nat.eq_zero_or_pos n with hn | hn
        · exfalso
          subst hn
          have hls : (scanUpTo tbl ne 0).lastSpare = 1 := rfl
          omega
        · exact Or.inr (Or.inl ⟨n, hn, Nat.lt_succ_self n, by rw [hnil]; rfl⟩)
      · exact Or.inr (Or.inr ⟨i1, n, h1, h2, Nat.lt_succ_self n, by rw [h3]; rfl⟩)
      · exfalso
        rw [h4] at hlen
        simp [SEQ_MEM_ACC_MAX_LEVELS] at hlen

theorem deriveRaw_shape (tbl : List HwParams) (ne : Nat)
    (h0 : (lutEntry tbl ne 0).spare_val ≤ 1)
    {r : Acc4} (hr : deriveRaw tbl ne = some r) :
    ∃ i1 i2 : Nat, 1 ≤ i1 ∧ i1 < i2 ∧
      r = ⟨(i1 : Int) - 1, (i1 : Int), (i2 : Int) - 1, (i2 : Int)⟩ := by
  have hs := scanUpTo_shape tbl ne h0 LUT_MAX_ENTRIES
  unfold deriveRaw at hr
  rcases hs with hnil | ⟨i1, h1, h2, h3⟩ | ⟨i1, i2, h1, h2, h3, h4⟩
  · rw [hnil] at hr
    simp [SEQ_MEM_ACC_MAX_LEVELS] at hr
  · rw [h3] at hr
    simp [SEQ_MEM_ACC_MAX_LEVELS] at hr
  · rw [h4] at hr
    simp only [SEQ_MEM_ACC_MAX_LEVELS, List.length_cons, List.length_nil] at hr
    rw [if_neg (by norm_num)] at hr
    exact ⟨i1, i2, h1, h2, (Option.some.inj hr).symm⟩

/-- C1 (amended): for every valid row table (non-decreasing spare
values, first spare value 1) on which the derivation succeeds, and every
MEM-ACC candidate as produced by `qcom_cpufreq_gen_params` (either the
`U8_MAX` sentinel or a corner ≥ 3), the four derived MEM-ACC indices
satisfy `acc_val[0] < acc_val[1] ≤ acc_val[2] < acc_val[3]`; without a
customized threshold they are all ≥ 0 and only the middle inequality can
be an equality; with a customized threshold the order is strict but
`acc_val[0]` can reach −1. -/
theorem crossover_order_bounds (tbl : List HwParams) (ne : Nat) (acc_vc : Int)
    (hnd : sparesNonDecr tbl = true)
    (h0 : (lutEntry tbl ne 0).spare_val = 1)
    (hvc : acc_vc = U8_MAX ∨ (3 ≤ acc_vc ∧ acc_vc < U8_MAX))
    (r : Acc4) (hr : deriveAcc tbl ne acc_vc = some r) :
    (0 ≤ r.a1 ∧ r.a0 < r.a1 ∧ r.a1 ≤ r.a2 ∧ r.a2 < r.a3) ∧
    (acc_vc = U8_MAX → 0 ≤ r.a0) ∧
    (acc_vc ≠ U8_MAX → r.a1 < r.a2 ∧ -1 ≤ r.a0) := by
  unfold deriveAcc at hr
  cases hdr : deriveRaw tbl ne with
  | none => rw [hdr] at hr; cases hr
  | some v =>
    rw [hdr] at hr
    obtain ⟨i1, i2, h1, h2, hv⟩ := deriveRaw_shape tbl ne (le_of_eq h0) hdr
    have hrv : r = adjustAcc acc_vc v := (Option.some.inj hr).symm
    subst hrv
    subst hv
    rw [adjustAcc]
    simp only [U8_MAX] at hvc ⊢
    split_ifs <;> dsimp only at * <;> omega

end Osm
namespace Osm

/-- A table whose MEM-ACC level rises at two adjacent corners
(spare values 1, 2, 3): valid per the row-table invariant. -/
def tblAdjacent : List HwParams :=
  [{ spare_val := 1 }, { spare_val := 2 }, { spare_val := 3 }]

/-- A table with transitions at corners 1 and 4
(spare values 1, 2, 2, 2, 3), giving raw pairs (0,1) and (3,4). -/
def tblTwoPairs : List HwParams :=
  [{ spare_val := 1 }, { spare_val := 2 }, { spare_val := 2 },
   { spare_val := 2 }, { spare_val := 3 }]

set_option maxRecDepth 8000 in
/-- C1 counterexample: on the valid table with spare values 1, 2, 3 (two
transitions at the adjacent corners 1 and 2) and no customized MEM-ACC
threshold, the derivation yields `acc_val = (0, 1, 1, 2)`, so the four
indices are not strictly ascending as the claim states. -/
theorem crossover_strict_order_fails :
    sparesNonDecr tblAdjacent = true ∧
    (lutEntry tblAdjacent 3 0).spare_val = 1 ∧
    deriveAcc tblAdjacent 3 U8_MAX = some ⟨0, 1, 1, 2⟩ ∧
    ¬ ((0 : Int) < 1 ∧ (1 : Int) < 1 ∧ (1 : Int) < 2) :=
  ⟨by rfl, by rfl, by rfl, by decide⟩

set_option maxRecDepth 8000 in
/-- C1 witness: the amended theorem applied to the concrete table with
spare values 1, 2, 2, 3 and no customized threshold. -/
theorem crossover_order_bounds_witness :
    (0 ≤ (1 : Int) ∧ (0 : Int) < 1 ∧ (1 : Int) ≤ 2 ∧ (2 : Int) < 3) ∧
    (U8_MAX = U8_MAX → 0 ≤ (0 : Int)) ∧
    (U8_MAX ≠ U8_MAX → (1 : Int) < 2 ∧ -1 ≤ (0 : Int)) :=
  crossover_order_bounds
    [{ spare_val := 1 }, { spare_val := 2 }, { spare_val := 2 }, { spare_val := 3 }]
    4 U8_MAX (by rfl) (by rfl) (Or.inl rfl) ⟨0, 1, 2, 3⟩ (by rfl)

set_option maxRecDepth 8000 in
/-- C2 counterexample: on the valid table with spare values 1, 2, 2, 2,
3 (raw pairs (0,1) and (3,4)) and the valid customized candidate corner
3, the adjustment produces `acc_val = (-1, 0, 1, 2)`: a negative index,
which the claim says is never produced. -/
theorem memacc_adjust_negative_index :
    sparesNonDecr tblTwoPairs = true ∧
    (lutEntry tblTwoPairs 5 0).spare_val = 1 ∧
    deriveRaw tblTwoPairs 5 = some ⟨0, 1, 3, 4⟩ ∧
    ((3 : Int) ≠ U8_MAX ∧ (3 : Int) ≠ 0) ∧
    deriveAcc tblTwoPairs 5 3 = some ⟨-1, 0, 1, 2⟩ ∧
    ¬ (0 ≤ (-1 : Int)) :=
  ⟨by rfl, by rfl, by rfl, by decide, by rfl, by decide⟩

/-- C2 (amended): for raw pairs `(a0, a1), (a2, a3)` as produced by the
scan and a valid customized candidate (3 ≤ acc_vc < U8_MAX), the
adjustment decrements the candidate by one and overwrites the upper pair
with `(acc_vc − 2, acc_vc − 1)` exactly when the adjusted value is below
the upper pair's *high* bound `acc_val[3]` (not its low bound, as the
claim states); the cascade repair leaves the four indices strictly
ascending, but the lowest may become −1 and no failure is signalled. -/
theorem memacc_adjust_characterization (acc_vc a0 a1 a2 a3 : Int) (r : Acc4)
    (hpair : a0 = a1 - 1 ∧ a2 = a3 - 1 ∧ 1 ≤ a1 ∧ a1 ≤ a2)
    (hvc : 3 ≤ acc_vc ∧ acc_vc < U8_MAX)
    (hres : adjustAcc acc_vc ⟨a0, a1, a2, a3⟩ = r) :
    (acc_vc - 1 < a3 → r.a2 = acc_vc - 2 ∧ r.a3 = acc_vc - 1) ∧
    (a3 ≤ acc_vc - 1 → r.a2 = a2 ∧ r.a3 = a3) ∧
    (r.a0 < r.a1 ∧ r.a1 < r.a2 ∧ r.a2 < r.a3) ∧
    -1 ≤ r.a0 := by
  subst hres
  rw [adjustAcc]
  simp only [U8_MAX] at hvc ⊢
  split_ifs <;> dsimp only at * <;> omega

/-- C2 witness: the amended theorem applied to raw pairs (0,1), (3,4)
with candidate corner 4. -/
theorem memacc_adjust_characterization_witness :
    ((4 : Int) - 1 < 4 → (2 : Int) = 4 - 2 ∧ (3 : Int) = 4 - 1) ∧
    ((4 : Int) ≤ 4 - 1 → (2 : Int) = 3 ∧ (3 : Int) = 4) ∧
    ((0 : Int) < 1 ∧ (1 : Int) < 2 ∧ (2 : Int) < 3) ∧
    -1 ≤ (0 : Int) :=
  memacc_adjust_characterization 4 0 1 3 4 ⟨0, 1, 2, 3⟩
    (by decide) (by decide) (by rfl)

end Osm
namespace Osm

/-- Helper for `FIELD_PREP(GENMASK(lo + width - 1, lo), val)`: mask `val` to `width`
bits and place it at bit `lo`. -/
def fieldPrep (lo width val : Nat) : Nat := (val % 2 ^ width) <<< lo

/-- One operating point as read by `qcom_cpufreq_gen_params` from the
platform OPP table: rate in Hz, voltage in microvolts, the mandatory
`qcom,pll-override` property (`none` when absent, which is an error),
and the optional `qcom,spare-data` / `qcom,pll-div` properties (read as
0 when absent, so they are plain naturals here). -/
structure OppEntry where
  rate : Nat
  volt_uV : Nat
  override_val : Option Nat
  spare_val : Nat := 0
  pll_div : Nat := 0
deriving DecidableEq, Repr

/-- Accumulator of the `qcom_cpufreq_gen_params` loop: the rows built so
far and the APM / MEM-ACC crossover candidates (`int` in C). -/
structure GenState where
  tbl : List HwParams
  apm_vc : Int
  acc_vc : Int
deriving DecidableEq, Repr

/-- One iteration of the `qcom_cpufreq_gen_params` loop for the `i`-th
operating point: record the first corner whose voltage reaches each
threshold, range-check the millivolt value, and build the LUT row.
`srcShift` is `ffs(reg_freq_lut_src_mask) - 1` (26 on msm8998). -/
def genStep (apm_uV acc_uV : Int) (cpuCount srcShift xo_rate : Nat)
    (i : Nat) (opp : OppEntry) (st : GenState) : Option GenState :=
  match opp.override_val with
  | none => none
  | some ov =>
    let apm_vc := if apm_uV ≤ (opp.volt_uV : Int) ∧ st.apm_vc < 0 then (i : Int) else st.apm_vc
    let acc_vc := if acc_uV ≤ (opp.volt_uV : Int) ∧ st.acc_vc < 0 then (i : Int) else st.acc_vc
    let millivolts := opp.volt_uV / 1000
    if millivolts < 150 ∨ 1400 < millivolts then none
    else
      let volt := fieldPrep 16 6 i ||| fieldPrep 0 12 millivolts
      let f_src := (if i = 0 then 0 else 1) <<< srcShift
      let freq := (f_src ||| opp.rate / xo_rate) ||| fieldPrep 16 3 cpuCount |||
        fieldPrep 24 2 opp.pll_div
      some { tbl := st.tbl ++
               [{ volt_lut_val := volt, freq_lut_val := freq,
                  override_val := ov, spare_val := opp.spare_val }],
             apm_vc := apm_vc, acc_vc := acc_vc }

/-- Run the `qcom_cpufreq_gen_params` loop over the remaining operating
points, `i` being the index of the first one. -/
def genRun (apm_uV acc_uV : Int) (cpuCount srcShift xo_rate : Nat) :
    List OppEntry → Nat → GenState → Option GenState
  | [], _, st => some st
  | opp :: rest, i, st =>
    match genStep apm_uV acc_uV cpuCount srcShift xo_rate i opp st with
    | none => none
    | some st' => genRun apm_uV acc_uV cpuCount srcShift xo_rate rest (i + 1) st'

/-- Result of `qcom_cpufreq_gen_params`: the row table, the APM and
MEM-ACC crossover candidates and the entry count. -/
structure GenResult where
  tbl : List HwParams
  apm_vc : Int
  acc_vc : Int
  num_entries : Nat
deriving DecidableEq, Repr

/-- Source function `qcom_cpufreq_gen_params`: fail below 2 operating points or without a
positive APM threshold; set `apm_vc` to −1 before the loop; treat a
non-positive MEM-ACC threshold as "not required" (`acc_uV = INT_MAX`,
`acc_vc = U8_MAX`); run the loop; finally invalidate a customized
MEM-ACC corner below `SEQ_MEM_ACC_MAX_LEVELS - 1`. -/
def qcom_cpufreq_gen_params (opps : List OppEntry)
    (apm_threshold_uV mem_acc_threshold_uV : Int)
    (cpuCount srcShift xo_rate : Nat) : Option GenResult :=
  if opps.length < 2 then none
  else if apm_threshold_uV ≤ 0 then none
  else
    let acc_uV : Int := if mem_acc_threshold_uV ≤ 0 then INT_MAX else mem_acc_threshold_uV
    let st0 : GenState :=
      { tbl := [], apm_vc := -1,
        acc_vc := if mem_acc_threshold_uV ≤ 0 then U8_MAX else -1 }
    match genRun apm_threshold_uV acc_uV cpuCount srcShift xo_rate opps 0 st0 with
    | none => none
    | some st =>
      some { tbl := st.tbl,
             apm_vc := st.apm_vc,
             acc_vc := if acc_uV ≠ INT_MAX ∧ st.acc_vc < (SEQ_MEM_ACC_MAX_LEVELS : Int) - 1
                       then U8_MAX else st.acc_vc,
             num_entries := opps.length }

/-- The APM threshold corner actually written by
`qcom_cpufreq_hw_write_lut` to `SEQ_APM_THRESH_VC`: the local `apm_vc`
is initialised to `INT_MAX` and only that sentinel is replaced by the
last LUT slot. -/
def apm_vc_written (apm_vc : Int) : Int :=
  if apm_vc = INT_MAX then (LUT_MAX_ENTRIES : Int) - 1 else apm_vc

/-- The APM threshold corner composed end-to-end: run
`qcom_cpufreq_gen_params`, then apply the `INT_MAX` defaulting of
`qcom_cpufreq_hw_write_lut`. -/
def apmThreshVcResult (opps : List OppEntry)
    (apm_threshold_uV mem_acc_threshold_uV : Int)
    (cpuCount srcShift xo_rate : Nat) : Option Int :=
  (qcom_cpufreq_gen_params opps apm_threshold_uV mem_acc_threshold_uV
      cpuCount srcShift xo_rate).map (fun g => apm_vc_written g.apm_vc)

/-- Two operating points (500 mV, 600 mV) none of which reaches the
750 mV APM threshold. -/
def oppsBelowApm : List OppEntry :=
  [{ rate := 300000000, volt_uV := 500000, override_val := some 7 },
   { rate := 600000000, volt_uV := 600000, override_val := some 7 }]

/-- C3: evaluation at the failing input. With two operating points at
500 mV and 600 mV and a 750 mV APM threshold that is never crossed,
`qcom_cpufreq_gen_params` leaves `apm_vc = -1`, and the
`apm_vc == INT_MAX` defaulting in `qcom_cpufreq_hw_write_lut` does not
fire, so the corner written to `SEQ_APM_THRESH_VC` is −1, not the last
LUT slot 39 as the claim (and the dead defaulting code) intends. -/
theorem apm_no_crossover_writes_minus_one :
    (∀ e ∈ oppsBelowApm, (e.volt_uV : Int) < 750000) ∧
    apmThreshVcResult oppsBelowApm 750000 0 4 26 19200000 = some (-1) ∧
    (-1 : Int) ≠ (LUT_MAX_ENTRIES : Int) - 1 :=
  ⟨by decide, by rfl, by decide⟩

/-- Register offsets of the four parallel LUT arrays (plus the index
register) and the per-row stride, from `qcom_cpufreq_soc_data` /
`qcom_cpufreq_soc_setup_data`. -/
structure LutRegs where
  reg_index : Nat
  reg_volt_lut : Nat
  reg_freq_lut : Nat
  reg_override : Nat
  reg_spare : Nat
  lut_row_size : Nat
deriving DecidableEq, Repr

/-- The five register writes performed for LUT slot `i` by the loop of
`qcom_cpufreq_hw_write_lut` (offset relative to the domain MMIO base,
value written). -/
def lutRowWrites (regs : LutRegs) (tbl : List HwParams) (numEntries i : Nat) :
    List (Nat × Nat) :=
  let pos := i * regs.lut_row_size
  let entry := lutEntry tbl numEntries i
  [(regs.reg_index + pos, i),
   (regs.reg_volt_lut + pos, entry.volt_lut_val),
   (regs.reg_freq_lut + pos, entry.freq_lut_val),
   (regs.reg_override + pos, entry.override_val),
   (regs.reg_spare + pos, entry.spare_val)]

/-- C4: for every padding index `num_entries ≤ i ≤ 39`, the row written
to the four parallel LUT register arrays (voltage, frequency, override,
spare) at slot `i` is the last real row `hw_tbl[num_entries − 1]` (the
index register receives `i` itself). -/
theorem lut_padding_repeats_last_row (regs : LutRegs) (tbl : List HwParams)
    (numEntries i : Nat) (h1 : numEntries ≤ i) (h2 : i ≤ LUT_MAX_ENTRIES - 1) :
    lutEntry tbl numEntries i = tbl.getD (numEntries - 1) default ∧
    (lutRowWrites regs tbl numEntries i).map Prod.snd =
      [i, (tbl.getD (numEntries - 1) default).volt_lut_val,
       (tbl.getD (numEntries - 1) default).freq_lut_val,
       (tbl.getD (numEntries - 1) default).override_val,
       (tbl.getD (numEntries - 1) default).spare_val] := by
  have hne : ¬ i < numEntries := Nat.not_lt.2 h1
  refine ⟨by rw [lutEntry, if_neg hne], ?_⟩
  simp [lutRowWrites, lutEntry, hne]

/-- C4 witness: the padding theorem applied at slot 7 of a 5-entry table
with the msm8998 register layout. -/
theorem lut_padding_repeats_last_row_witness :
    lutEntry tblTwoPairs 5 7 = tblTwoPairs.getD 4 default ∧
    (lutRowWrites ⟨0x150, 0x158, 0x154, 0x15c, 0x164, 32⟩ tblTwoPairs 5 7).map Prod.snd =
      [7, (tblTwoPairs.getD 4 default).volt_lut_val,
       (tblTwoPairs.getD 4 default).freq_lut_val,
       (tblTwoPairs.getD 4 default).override_val,
       (tblTwoPairs.getD 4 default).spare_val] :=
  lut_padding_repeats_last_row ⟨0x150, 0x158, 0x154, 0x15c, 0x164, 32⟩
    tblTwoPairs 5 7 (by decide) (by decide)

end Osm
namespace Osm

/-- Driver-side view of one cpufreq policy: the resolved frequency table
(`policy->freq_table`, frequencies in kHz) and the contents of the
domain's performance-state request register (`reg_perf_state`).
`last_bw_vote` records the most recent interconnect-bandwidth vote. -/
structure Policy where
  freq_table : List Nat
  perf_state_reg : Nat
  last_bw_vote : Option Nat := none
deriving DecidableEq, Repr

/-- Source function `qcom_cpufreq_hw_target_index`: write `index` to the performance
state register; when interconnect scaling is enabled, additionally
request a matching bandwidth vote (`qcom_cpufreq_set_bw`), whose result
`bw_vote_result` is discarded by the C code — it influences neither the
register write nor the returned value.  Returns `(new policy, return
code)`; the C function is documented "Returns: Always zero". -/
def qcom_cpufreq_hw_target_index (p : Policy) (icc_scaling_enabled : Bool)
    (bw_vote_result : Int) (index : Nat) : Policy × Int :=
  let freq := p.freq_table.getD index 0
  let p := { p with perf_state_reg := index }
  let p := if icc_scaling_enabled then { p with last_bw_vote := some freq } else p
  (p, 0)

/-- Source function `qcom_cpufreq_hw_get`: return 0 when the CPU has no registered
policy; otherwise read the performance-state register, clamp it to
`LUT_MAX_ENTRIES - 1` and look the frequency up in the resolved table. -/
def qcom_cpufreq_hw_get (pol : Option Policy) : Nat :=
  match pol with
  | none => 0
  | some p => p.freq_table.getD (min p.perf_state_reg (LUT_MAX_ENTRIES - 1)) 0

/-- C6: for every index `i` in range of a resolved frequency table of at
most `LUT_MAX_ENTRIES` rows, `qcom_cpufreq_hw_get` after
`qcom_cpufreq_hw_target_index(i)` (with no intervening change to the
performance-state register) returns the frequency at row `i`. -/
theorem get_after_set_roundtrip (p : Policy) (icc : Bool) (bw : Int) (i : Nat)
    (hlen : p.freq_table.length ≤ LUT_MAX_ENTRIES)
    (hi : i < p.freq_table.length) :
    qcom_cpufreq_hw_get (some (qcom_cpufreq_hw_target_index p icc bw i).1) =
      p.freq_table.getD i 0 := by
  have hmin : min i (LUT_MAX_ENTRIES - 1) = i := by
    simp only [LUT_MAX_ENTRIES] at *
    omega
  cases icc <;>
    simp [qcom_cpufreq_hw_target_index, qcom_cpufreq_hw_get, hmin]

/-- C6 witness: the round-trip theorem applied to a two-row table at
index 1, with interconnect scaling enabled and a failing bandwidth
vote. -/
theorem get_after_set_roundtrip_witness :
    qcom_cpufreq_hw_get
        (some (qcom_cpufreq_hw_target_index ⟨[300000, 600000], 0, none⟩ true (-22) 1).1) =
      [300000, 600000].getD 1 0 :=
  get_after_set_roundtrip ⟨[300000, 600000], 0, none⟩ true (-22) 1 (by decide) (by decide)

/-- C9: `qcom_cpufreq_hw_target_index` always reports success (returns
0) and writes the index to the performance-state register
unconditionally, for any interconnect-scaling setting and any outcome of
the bandwidth vote. -/
theorem target_index_always_zero (p : Policy) (icc : Bool) (bw : Int) (i : Nat) :
    (qcom_cpufreq_hw_target_index p icc bw i).2 = 0 ∧
    (qcom_cpufreq_hw_target_index p icc bw i).1.perf_state_reg = i := by
  cases icc <;> exact ⟨rfl, rfl⟩

/-- A policy whose resolved table has the full `LUT_MAX_ENTRIES + 1`
entries (40 LUT rows plus the table-end marker slot built by
`qcom_cpufreq_hw_read_lut`). -/
def fullTablePolicy : Policy :=
  { freq_table := List.replicate (LUT_MAX_ENTRIES + 1) 300000, perf_state_reg := 1000 }

/-- C10: `qcom_cpufreq_hw_get` returns 0 for a CPU with no registered
policy, and with a policy it clamps the hardware index to
`LUT_MAX_ENTRIES - 1 = 39`, so the lookup stays inside the 41-entry
resolved table. -/
theorem get_total_and_clamped (p : Policy)
    (hlen : p.freq_table.length = LUT_MAX_ENTRIES + 1) :
    qcom_cpufreq_hw_get none = 0 ∧
    min p.perf_state_reg (LUT_MAX_ENTRIES - 1) < p.freq_table.length ∧
    qcom_cpufreq_hw_get (some p) =
      p.freq_table.getD (min p.perf_state_reg (LUT_MAX_ENTRIES - 1)) 0 := by
  refine ⟨rfl, ?_, rfl⟩
  simp only [LUT_MAX_ENTRIES] at *
  omega

/-- C10 witness: the totality/clamping theorem applied to a full
41-entry table with an out-of-range hardware index 1000. -/
theorem get_total_and_clamped_witness :
    qcom_cpufreq_hw_get none = 0 ∧
    min fullTablePolicy.perf_state_reg (LUT_MAX_ENTRIES - 1) <
      fullTablePolicy.freq_table.length ∧
    qcom_cpufreq_hw_get (some fullTablePolicy) =
      fullTablePolicy.freq_table.getD
        (min fullTablePolicy.perf_state_reg (LUT_MAX_ENTRIES - 1)) 0 :=
  get_total_and_clamped fullTablePolicy (by decide)

/-- States of the throttle notifier (spec §4.7). -/
inductive ThrottleMode
  | irqArmed
  | polling
  | cancelled
deriving DecidableEq, Repr

/-- Externally visible actions of one poll iteration. -/
inductive NotifyAction
  | updateThermalPressure (freqKHz : Nat)
  | enableIrq
  | schedulePollMs (ms : Nat)
deriving DecidableEq, Repr

/-- Source function `qcom_lmh_get_throttle_freq`: `(readl(reg_current_vote) & 0x3FF) * 19200`,
in kHz. -/
def qcom_lmh_get_throttle_freq (regVal : Nat) : Nat := (regVal &&& 0x3FF) * 19200

/-- The OPP normalization in `qcom_lmh_dcvs_notify`: floor-match the
frequency (Hz) against the registered OPP table; when below the whole
range (`-ERANGE`), ceil-match instead; with no OPPs at all the value is
left unchanged. -/
def resolveThrottleHz (opps : List Nat) (freq_hz : Nat) : Nat :=
  match (opps.filter (· ≤ freq_hz)).max? with
  | some f => f
  | none =>
    match (opps.filter (freq_hz ≤ ·)).min? with
    | some f => f
    | none => freq_hz

/-- The throttled frequency (kHz) published by one poll iteration:
vote-register decode, kHz→Hz, OPP normalization, Hz→kHz. -/
def throttledFreqKHz (opps : List Nat) (regVal : Nat) : Nat :=
  resolveThrottleHz opps (qcom_lmh_get_throttle_freq regVal * 1000) / 1000

/-- One poll iteration, `qcom_lmh_dcvs_notify`: publish the normalized
throttled frequency as thermal pressure, then under the throttle lock:
stop if cancelled; re-enable the interrupt if the throttled frequency
reached what cpufreq last requested (`qcom_cpufreq_hw_get`); otherwise
schedule exactly one further poll 10 ms later. -/
def qcom_lmh_dcvs_notify (regVal : Nat) (opps : List Nat) (p : Policy)
    (cancel : Bool) : ThrottleMode × List NotifyAction :=
  let throttled_freq := throttledFreqKHz opps regVal
  let publish := NotifyAction.updateThermalPressure throttled_freq
  if cancel then
    (ThrottleMode.cancelled, [publish])
  else if qcom_cpufreq_hw_get (some p) ≤ throttled_freq then
    (ThrottleMode.irqArmed, [publish, NotifyAction.enableIrq])
  else
    (ThrottleMode.polling, [publish, NotifyAction.schedulePollMs 10])

/-- C7: a poll iteration that is not cancelled and reads a throttled
frequency at or above the currently requested one publishes the value
and re-enables the interrupt (transition to IrqArmed); one reading a
lower value publishes it and schedules exactly one further poll 10 ms
later (remains Polling); a cancelled iteration publishes the value and
does neither (transition to Cancelled). -/
theorem poll_iteration_transitions (regVal : Nat) (opps : List Nat) (p : Policy)
    (cancel : Bool) :
    (cancel = true →
      qcom_lmh_dcvs_notify regVal opps p cancel =
        (ThrottleMode.cancelled,
         [NotifyAction.updateThermalPressure (throttledFreqKHz opps regVal)])) ∧
    (cancel = false → qcom_cpufreq_hw_get (some p) ≤ throttledFreqKHz opps regVal →
      qcom_lmh_dcvs_notify regVal opps p cancel =
        (ThrottleMode.irqArmed,
         [NotifyAction.updateThermalPressure (throttledFreqKHz opps regVal),
          NotifyAction.enableIrq])) ∧
    (cancel = false → throttledFreqKHz opps regVal < qcom_cpufreq_hw_get (some p) →
      qcom_lmh_dcvs_notify regVal opps p cancel =
        (ThrottleMode.polling,
         [NotifyAction.updateThermalPressure (throttledFreqKHz opps regVal),
          NotifyAction.schedulePollMs 10])) := by
  refine ⟨fun hc => ?_, fun hc hge => ?_, fun hc hlt => ?_⟩
  · simp [qcom_lmh_dcvs_notify, hc]
  · simp [qcom_lmh_dcvs_notify, hc, hge]
  · simp [qcom_lmh_dcvs_notify, hc, Nat.not_le.2 hlt]

/-- C7 witness: the transition theorem applied to a concrete vote
register value whose normalized frequency equals the requested one. -/
theorem poll_iteration_transitions_witness :
    qcom_lmh_dcvs_notify 1 [19200000, 38400000] ⟨[19200, 38400], 0, none⟩ false =
      (ThrottleMode.irqArmed,
       [NotifyAction.updateThermalPressure
          (throttledFreqKHz [19200000, 38400000] 1),
        NotifyAction.enableIrq]) :=
  (poll_iteration_transitions 1 [19200000, 38400000] ⟨[19200, 38400], 0, none⟩ false).2.1
    rfl (by decide)

end Osm
namespace Osm

/-- Register offsets and parameter values of one ACD block, mirroring
`struct qcom_cpufreq_soc_acd_data`. -/
structure AcdData where
  tl_delay_reg : Nat
  acd_ctrl_reg : Nat
  softstart_reg : Nat
  ext_intf_reg : Nat
  auto_xfer_reg : Nat
  auto_xfer_cfg_reg : Nat
  auto_xfer_ctl_reg : Nat
  auto_xfer_sts_reg : Nat
  dcvs_sw_reg : Nat
  gfmux_cfg_reg : Nat
  write_ctl_reg : Nat
  write_sts_reg : Nat
  tl_delay_val : Nat
  acd_ctrl_val : Nat
  softstart_val : Nat
  ext_intf0_val : Nat
  ext_intf1_val : Nat
  auto_xfer_val : Nat
deriving DecidableEq, Repr

/-- One intended MMIO operation of the ACD initialization sequence:
a register write (offset within the ACD iospace), a bounded poll of a
status register for a mask (poll interval and timeout in µs, from
`readl_poll_timeout(addr, val, cond, 1, 3)`), or a fixed delay (µs). -/
inductive AcdEvent
  | write (off val : Nat)
  | pollSts (off mask intervalUs timeoutUs : Nat)
  | delayUs (us : Nat)
deriving DecidableEq, Repr

/-- Source function `qcom_cpufreq_acd_regbit`: `BIT(acd_reg_offset / 4)`. -/
def qcom_cpufreq_acd_regbit (acd_reg_offset : Nat) : Nat := 2 ^ (acd_reg_offset / 4)

/-- Source function `qcom_cpufreq_hw_acd_write_autoxfer`: write the register mask to the
auto-transfer configuration register, pulse the start bit (write 0 then
1), poll bit 0 of the status register every 1 µs for up to 3 µs. -/
def qcom_cpufreq_hw_acd_write_autoxfer (a : AcdData) (val : Nat) : List AcdEvent :=
  [.write a.auto_xfer_cfg_reg val,
   .write a.auto_xfer_reg 0,
   .write a.auto_xfer_reg 1,
   .pollSts a.auto_xfer_sts_reg 1 1 3]

/-- Source function `qcom_cpufreq_hw_acd_write_xfer`: write the value to its own
register, clear the write-control register, write the select/update
control value, poll the write-status register for the register's bit. -/
def qcom_cpufreq_hw_acd_write_xfer (a : AcdData) (reg val : Nat) : List AcdEvent :=
  [.write reg val,
   .write a.write_ctl_reg 0,
   .write a.write_ctl_reg ((reg / 4) <<< 1 ||| 1),
   .pollSts a.write_sts_reg (qcom_cpufreq_acd_regbit reg) 1 3]

/-- The mask of the four initially-programmed ACD sub-registers, as
accumulated in `rmask` by `qcom_cpufreq_hw_acd_init`. -/
def acdInitMask (a : AcdData) : Nat :=
  qcom_cpufreq_acd_regbit a.acd_ctrl_reg |||
  qcom_cpufreq_acd_regbit a.tl_delay_reg |||
  qcom_cpufreq_acd_regbit a.softstart_reg |||
  qcom_cpufreq_acd_regbit a.ext_intf_reg

/-- Source function `qcom_cpufreq_hw_acd_init` (success path, ACD iospace present): the
sequence of MMIO operations it performs, in program order. Note that the
final step writes the extended mask (including the gfmux bit) to the
auto-transfer *configuration* register only — it does not pulse the
start bit and does not poll the status register — and then waits
`OSM_BOOT_TIME_US` (5 µs). -/
def qcom_cpufreq_hw_acd_init (a : AcdData) : List AcdEvent :=
  [.write a.tl_delay_reg a.tl_delay_val,
   .write a.acd_ctrl_reg a.acd_ctrl_val,
   .write a.softstart_reg a.softstart_val,
   .write a.ext_intf_reg a.ext_intf0_val,
   .write a.auto_xfer_ctl_reg a.auto_xfer_val] ++
  qcom_cpufreq_hw_acd_write_autoxfer a (acdInitMask a) ++
  qcom_cpufreq_hw_acd_write_xfer a a.gfmux_cfg_reg 1 ++
  qcom_cpufreq_hw_acd_write_xfer a a.dcvs_sw_reg 1 ++
  qcom_cpufreq_hw_acd_write_xfer a a.dcvs_sw_reg 0 ++
  [.delayUs 1] ++
  qcom_cpufreq_hw_acd_write_xfer a a.ext_intf_reg a.ext_intf1_val ++
  [.write a.auto_xfer_cfg_reg (acdInitMask a ||| qcom_cpufreq_acd_regbit a.gfmux_cfg_reg)] ++
  [.delayUs 5]

/-- The ACD initialization sequence as the specification describes it
(spec §4.4 "Sequence:"), parameterized by whether the final transfer is
a full auto-transfer of the accumulated mask including the
clock-mux-select bit (`finalFullXfer = true`, the claimed behaviour) or
only a write of that mask to the configuration register
(`finalFullXfer = false`). -/
def acdSpecSequence (a : AcdData) (finalFullXfer : Bool) : List AcdEvent :=
  [.write a.tl_delay_reg a.tl_delay_val,
   .write a.acd_ctrl_reg a.acd_ctrl_val,
   .write a.softstart_reg a.softstart_val,
   .write a.ext_intf_reg a.ext_intf0_val,
   .write a.auto_xfer_ctl_reg a.auto_xfer_val] ++
  qcom_cpufreq_hw_acd_write_autoxfer a (acdInitMask a) ++
  qcom_cpufreq_hw_acd_write_xfer a a.gfmux_cfg_reg 1 ++
  qcom_cpufreq_hw_acd_write_xfer a a.dcvs_sw_reg 1 ++
  qcom_cpufreq_hw_acd_write_xfer a a.dcvs_sw_reg 0 ++
  [.delayUs 1] ++
  qcom_cpufreq_hw_acd_write_xfer a a.ext_intf_reg a.ext_intf1_val ++
  (if finalFullXfer then
    qcom_cpufreq_hw_acd_write_autoxfer a
      (acdInitMask a ||| qcom_cpufreq_acd_regbit a.gfmux_cfg_reg)
   else
    [.write a.auto_xfer_cfg_reg (acdInitMask a ||| qcom_cpufreq_acd_regbit a.gfmux_cfg_reg)]) ++
  [.delayUs 5]

/-- The msm8998 ACD block parameters (`msm8998_soc_data.acd_data`). -/
def msm8998_acd_data : AcdData :=
  { acd_ctrl_reg := 0x4,
    tl_delay_reg := 0x8,
    softstart_reg := 0x28,
    ext_intf_reg := 0x30,
    dcvs_sw_reg := 0x34,
    gfmux_cfg_reg := 0x3c,
    auto_xfer_cfg_reg := 0x80,
    auto_xfer_reg := 0x84,
    auto_xfer_ctl_reg := 0x88,
    auto_xfer_sts_reg := 0x8c,
    write_ctl_reg := 0x90,
    write_sts_reg := 0x94,
    tl_delay_val := 38417,
    acd_ctrl_val := 0x2b5ffd,
    softstart_val := 0x501,
    ext_intf0_val := 0x2cf9ae8,
    ext_intf1_val := 0x2cf9afe,
    auto_xfer_val := 0x15 }

/-- C5 counterexample: on the msm8998 ACD block, the trace of
`qcom_cpufreq_hw_acd_init` differs from the claimed sequence, whose
final transfer step is a full auto-transfer (config write, start-bit
pulse 0 then 1, status poll) of the mask including the clock-mux-select
bit. -/
theorem acd_final_autoxfer_missing :
    qcom_cpufreq_hw_acd_init msm8998_acd_data ≠
      acdSpecSequence msm8998_acd_data true := by
  decide

/-- C5 (amended): for every ACD block configuration, the initialization
follows the specified step sequence except that its final transfer step
only writes the accumulated register mask — which does include the
clock-mux-select bit — to the auto-transfer configuration register,
without pulsing the start bit or polling the status register, before the
fixed boot-time settle delay. -/
theorem acd_init_sequence_final_cfg_write_only (a : AcdData) :
    qcom_cpufreq_hw_acd_init a = acdSpecSequence a false ∧
    Nat.testBit (acdInitMask a ||| qcom_cpufreq_acd_regbit a.gfmux_cfg_reg)
      (a.gfmux_cfg_reg / 4) = true := by
  constructor
  · rfl
  · simp [qcom_cpufreq_acd_regbit, Nat.testBit_or]

end Osm
namespace Osm

/-- Shared state of one frequency domain's LMh teardown/notify paths.
`lockHeld` models `throttle_lock`; `workPending`/`workRunning` model the
delayed work being queued / executing; `irqEnabled`/`irqFreed` model the
state of the throttle interrupt line; `tdPc` is the program counter of
`qcom_cpufreq_hw_lmh_exit` (0 = about to `mutex_lock`, 1 = about to set
`cancel_throttle`, 2 = about to `mutex_unlock`, 3 = about to
`cancel_delayed_work_sync`, 4 = about to `free_irq`, 5 = returned);
`wPc` is the program counter of the poll work
(0 = idle, 1 = executing the body of `qcom_lmh_dcvs_notify` before the
lock — reading the vote register and publishing thermal pressure,
2 = about to `mutex_lock`, 3 = inside the locked section).
`tdReturned` records that `qcom_cpufreq_hw_lmh_exit` has returned, and
`pollAfterReturn` that a poll body executed after that. -/
structure LmhSys where
  lockHeld : Bool
  cancel : Bool
  irqEnabled : Bool
  irqFreed : Bool
  workPending : Bool
  workRunning : Bool
  tdPc : Nat
  wPc : Nat
  tdReturned : Bool
  pollAfterReturn : Bool
deriving DecidableEq, Repr

/-- Scheduler choices: one atomic step of the teardown thread, of the
workqueue worker (dispatch, pre-lock body, lock acquisition, locked
section with the observed "throttled ≥ requested" outcome), or of the
interrupt handler `qcom_lmh_dcvs_handle_irq`. -/
inductive LmhStep
  | teardown
  | workStart
  | workBody
  | workLock
  | workCrit (throttleGE : Bool)
  | irqFire
deriving DecidableEq, Repr

/-- Small-step semantics. A step whose enabling condition does not hold
(a blocked mutex acquisition, a blocked synchronous cancel, an interrupt
on a disabled or freed line, no work to dispatch) leaves the state
unchanged. `cancel_delayed_work_sync` is modelled as an atomic step that
is enabled only once no work invocation is running and that removes any
pending work; `free_irq` marks the line freed, after which the handler
can no longer fire. -/
def lmhStep (s : LmhSys) : LmhStep → LmhSys
  | .teardown =>
    match s.tdPc with
    | 0 => if s.lockHeld then s else { s with lockHeld := true, tdPc := 1 }
    | 1 => { s with cancel := true, tdPc := 2 }
    | 2 => { s with lockHeld := false, tdPc := 3 }
    | 3 => if s.workRunning then s else { s with workPending := false, tdPc := 4 }
    | 4 => { s with irqFreed := true, tdPc := 5, tdReturned := true }
    | _ => s
  | .workStart =>
    if s.workPending ∧ ¬ s.workRunning ∧ s.wPc = 0 then
      { s with workPending := false, workRunning := true, wPc := 1 }
    else s
  | .workBody =>
    if s.wPc = 1 then
      { s with wPc := 2, pollAfterReturn := s.pollAfterReturn ∨ s.tdReturned }
    else s
  | .workLock =>
    if s.wPc = 2 ∧ ¬ s.lockHeld then { s with lockHeld := true, wPc := 3 } else s
  | .workCrit throttleGE =>
    if s.wPc = 3 then
      if s.cancel then
        { s with lockHeld := false, workRunning := false, wPc := 0 }
      else if throttleGE then
        { s with irqEnabled := true, lockHeld := false, workRunning := false, wPc := 0 }
      else
        { s with workPending := true, lockHeld := false, workRunning := false, wPc := 0 }
    else s
  | .irqFire =>
    if s.irqEnabled ∧ ¬ s.irqFreed then
      { s with irqEnabled := false, workPending := true }
    else s

/-- Run a schedule from a state. -/
def lmhRun (s : LmhSys) (sched : List LmhStep) : LmhSys := sched.foldl lmhStep s

/-- Initial state with a poll invocation in flight (its body about to
run) and teardown about to be invoked. -/
def lmhInFlight : LmhSys :=
  { lockHeld := false, cancel := false, irqEnabled := false, irqFreed := false,
    workPending := false, workRunning := true, tdPc := 0, wPc := 1,
    tdReturned := false, pollAfterReturn := false }

/-- A schedule in which the in-flight poll holds the lock when teardown
first tries to take it (the blocked attempt is the 3rd step), the poll
re-enables the interrupt (vote ≥ requested) before teardown sets the
cancellation flag, the interrupt fires between
`cancel_delayed_work_sync` and `free_irq`, and the resulting poll body
runs after `qcom_cpufreq_hw_lmh_exit` has returned. -/
def lmhRaceSchedule : List LmhStep :=
  [.workBody, .workLock, .teardown, .workCrit true,
   .teardown, .teardown, .teardown, .teardown,
   .irqFire, .teardown, .workStart, .workBody]

/-- C8: evaluation at the failing schedule. Starting with a poll
invocation in flight, teardown's lock acquisition is blocked while the
poll holds the lock (after 3 steps `tdPc` is still 0), and the
synchronous cancel does wait for that invocation; but when the poll
re-armed the interrupt before observing cancellation, an interrupt
arriving between `cancel_delayed_work_sync` and `free_irq` schedules a
new poll whose body executes after `qcom_cpufreq_hw_lmh_exit` has
returned — contradicting the claim that no poll runs after teardown
returns. -/
theorem teardown_poll_race :
    lmhInFlight.workRunning = true ∧
    (lmhRun lmhInFlight (lmhRaceSchedule.take 3)).tdPc = 0 ∧
    (lmhRun lmhInFlight lmhRaceSchedule).tdReturned = true ∧
    (lmhRun lmhInFlight lmhRaceSchedule).pollAfterReturn = true := by
  decide

end Osm
namespace Osm

theorem genStep_acc_vc_frozen (apm acc_uV : Int) (cc ss xo i : Nat)
    (opp : OppEntry) (st st1 : GenState) (h : 0 ≤ st.acc_vc)
    (hstep : genStep apm acc_uV cc ss xo i opp st = some st1) :
    st1.acc_vc = st.acc_vc := by
  unfold genStep at hstep
  cases hov : opp.override_val with
  | none => rw [hov] at hstep; cases hstep
  | some ov =>
    rw [hov] at hstep
    dsimp only at hstep
    split_ifs at hstep <;> cases hstep <;> dsimp only <;> omega

theorem genRun_acc_vc_frozen (apm acc_uV : Int) (cc ss xo : Nat) :
    ∀ (opps : List OppEntry) (i : Nat) (st st' : GenState),
      0 ≤ st.acc_vc →
      genRun apm acc_uV cc ss xo opps i st = some st' → st'.acc_vc = st.acc_vc := by
  intro opps
  induction opps with
  | nil =>
    intro i st st' h hr
    unfold genRun at hr
    rw [← Option.some.inj hr]
  | cons opp rest ih =>
    intro i st st' h hr
    unfold genRun at hr
    cases hstep : genStep apm acc_uV cc ss xo i opp st with
    | none => rw [hstep] at hr; cases hr
    | some st1 =>
      rw [hstep] at hr
      have h1 := genStep_acc_vc_frozen apm acc_uV cc ss xo i opp st st1 h hstep
      have h2 := ih (i + 1) st1 st' (by omega) hr
      omega

theorem gen_params_acc_vc_valid (opps : List OppEntry) (apm acc : Int)
    (cc ss xo : Nat) (g : GenResult) (hacc : acc < INT_MAX)
    (hg : qcom_cpufreq_gen_params opps apm acc cc ss xo = some g) :
    g.acc_vc = U8_MAX ∨ 3 ≤ g.acc_vc := by
  unfold qcom_cpufreq_gen_params at hg
  by_cases hlen : opps.length < 2
  · rw [if_pos hlen] at hg; cases hg
  rw [if_neg hlen] at hg
  by_cases hapm : apm ≤ 0
  · rw [if_pos hapm] at hg; cases hg
  rw [if_neg hapm] at hg
  dsimp only at hg
  by_cases hle : acc ≤ 0
  · rw [if_pos hle, if_pos hle] at hg
    cases hrun : genRun apm INT_MAX cc ss xo opps 0
        { tbl := [], apm_vc := -1, acc_vc := U8_MAX } with
    | none => rw [hrun] at hg; cases hg
    | some st =>
      rw [hrun] at hg
      dsimp only at hg
      rw [if_neg (by simp)] at hg
      have hfrozen := genRun_acc_vc_frozen apm INT_MAX cc ss xo opps 0 _ st
        (by simp [U8_MAX]) hrun
      left
      rw [← Option.some.inj hg]
      exact hfrozen
  · rw [if_neg hle, if_neg hle] at hg
    cases hrun : genRun apm acc cc ss xo opps 0
        { tbl := [], apm_vc := -1, acc_vc := -1 } with
    | none => rw [hrun] at hg; cases hg
    | some st =>
      rw [hrun] at hg
      dsimp only at hg
      have hcast : ((SEQ_MEM_ACC_MAX_LEVELS : Nat) : Int) = 4 := by
        norm_num [SEQ_MEM_ACC_MAX_LEVELS]
      by_cases hlt : st.acc_vc < (SEQ_MEM_ACC_MAX_LEVELS : Int) - 1
      · rw [if_pos ⟨by omega, hlt⟩] at hg
        left
        rw [← Option.some.inj hg]
      · rw [if_neg (by intro hand; exact hlt hand.2)] at hg
        right
        rw [← Option.some.inj hg]
        dsimp only
        omega

/-- Scenario A of the specification's testable properties: five
operating points at 500/600/700/800/900 mV with a 750 mV APM threshold
and no MEM-ACC threshold give APM crossover corner 3 (first corner at or
above the threshold) and the MEM-ACC candidate stays "not required". -/
def oppsScenarioA : List OppEntry :=
  [{ rate :=  300000000, volt_uV := 500000, override_val := some 7 },
   { rate :=  600000000, volt_uV := 600000, override_val := some 7 },
   { rate :=  900000000, volt_uV := 700000, override_val := some 7 },
   { rate := 1200000000, volt_uV := 800000, override_val := some 7 },
   { rate := 1500000000, volt_uV := 900000, override_val := some 7 }]

theorem apm_crossover_scenario_a :
    apmThreshVcResult oppsScenarioA 750000 0 4 26 19200000 = some 3 ∧
    (qcom_cpufreq_gen_params oppsScenarioA 750000 0 4 26 19200000).map
      (fun g => g.acc_vc) = some U8_MAX := by
  constructor <;> rfl

end Osm
